import Mathlib

/-!
Verification of the `glean` draft–critique–revise loop from
`gleaning_demo.ipynb`.

The notebook defines

```python
def glean(role: str, max_iter: int = 3) -> str:
    email = draft(role)
    for _ in range(max_iter):
        fb = critique(role, email)
        print("Feedback: ", fb.feedback, ...)
        if not fb.needs_improvement:
            print("No improvement needed")
            return email
        email = revise(role, email, fb.feedback)
    return email
```

where `draft`, `critique` and `revise` are external LLM invocations and
`critique` returns a Pydantic record `Critique(feedback: str,
needs_improvement: bool)`.

We embed the orchestration shallowly.  The three external steps are
modelled by an oracle (`Steps`) giving the outcome of each invocation in
call order; an outcome is either a value or a failure (`Except`), since
any invocation may raise.  The embedding returns, besides the result of
`glean` (a candidate or a propagated failure), the full trace of external
invocations made, each recorded with the exact arguments that were passed
and the outcome that came back.  The `print` statements of the notebook
are pure console output and are not modelled.  Python's
`range(max_iter)` on an `int` iterates `max(max_iter, 0)` times, which is
`Int.toNat max_iter`.
-/

namespace Gleaning

/-- The structured critique record (Pydantic model `Critique`). -/
structure Critique where
  feedback : String
  needs_improvement : Bool
deriving DecidableEq

/-- Outcomes of the external LLM steps, in call order: `draftRes` is the
outcome of the single `draft` invocation, `critiqueRes i` the outcome of
the `i`-th `critique` invocation (0-indexed), `reviseRes i` the outcome
of the `i`-th `revise` invocation.  `ε` is the type of invocation
failures. -/
structure Steps (ε : Type) where
  draftRes : Except ε String
  critiqueRes : Nat → Except ε Critique
  reviseRes : Nat → Except ε String

/-- One recorded external invocation: the step, the arguments passed, and
the outcome that came back. -/
inductive Call (ε : Type) where
  | draftCall (role : String) (result : Except ε String)
  | critiqueCall (role : String) (email : String) (result : Except ε Critique)
  | reviseCall (role : String) (email : String) (feedback : String) (result : Except ε String)

/-- The `for _ in range(max_iter)` body of `glean`: `i` is the index of
the next critique/revise pair, `fuel` the number of loop iterations left,
`email` the current candidate.  Returns the trace of invocations made by
the remaining iterations and the result (`Except.error` when an
invocation fails, which propagates and aborts the loop). -/
def gleanLoop {ε : Type} (s : Steps ε) (role : String) :
    Nat → Nat → String → List (Call ε) × Except ε String
  | _, 0, email => ([], Except.ok email)
  | i, fuel + 1, email =>
    match s.critiqueRes i with
    | Except.error e => ([Call.critiqueCall role email (Except.error e)], Except.error e)
    | Except.ok fb =>
      if fb.needs_improvement = false then
        ([Call.critiqueCall role email (Except.ok fb)], Except.ok email)
      else
        match s.reviseRes i with
        | Except.error e =>
          ([Call.critiqueCall role email (Except.ok fb),
            Call.reviseCall role email fb.feedback (Except.error e)], Except.error e)
        | Except.ok email2 =>
          let p := gleanLoop s role (i + 1) fuel email2
          (Call.critiqueCall role email (Except.ok fb) ::
            Call.reviseCall role email fb.feedback (Except.ok email2) :: p.1, p.2)

/-- The notebook's `glean(role, max_iter)`: draft once, then critique and
revise for at most `max_iter` iterations, stopping early as soon as a
critique reports `needs_improvement = false`.  Returns the invocation
trace and the result. -/
def glean {ε : Type} (s : Steps ε) (role : String) (max_iter : Int) :
    List (Call ε) × Except ε String :=
  match s.draftRes with
  | Except.error e => ([Call.draftCall role (Except.error e)], Except.error e)
  | Except.ok email =>
    let p := gleanLoop s role 0 max_iter.toNat email
    (Call.draftCall role (Except.ok email) :: p.1, p.2)

/-- Number of `draft` invocations in a trace. -/
def countDraft {ε : Type} : List (Call ε) → Nat
  | [] => 0
  | Call.draftCall _ _ :: tr => countDraft tr + 1
  | _ :: tr => countDraft tr

/-- Number of `critique` invocations in a trace. -/
def countCritique {ε : Type} : List (Call ε) → Nat
  | [] => 0
  | Call.critiqueCall _ _ _ :: tr => countCritique tr + 1
  | _ :: tr => countCritique tr

/-- Number of `revise` invocations in a trace. -/
def countRevise {ε : Type} : List (Call ε) → Nat
  | [] => 0
  | Call.reviseCall _ _ _ _ :: tr => countRevise tr + 1
  | _ :: tr => countRevise tr

/-- The candidates passed into the `critique` invocations of a trace, in
call order. -/
def critiqueEmails {ε : Type} : List (Call ε) → List String
  | [] => []
  | Call.critiqueCall _ email _ :: tr => email :: critiqueEmails tr
  | _ :: tr => critiqueEmails tr

/-- The failure recorded in a call, if the call failed. -/
def callError {ε : Type} : Call ε → Option ε
  | Call.draftCall _ (Except.error e) => some e
  | Call.critiqueCall _ _ (Except.error e) => some e
  | Call.reviseCall _ _ _ (Except.error e) => some e
  | _ => none

/-- The task (`role`) argument passed in a call. -/
def callRole {ε : Type} : Call ε → String
  | Call.draftCall role _ => role
  | Call.critiqueCall role _ _ => role
  | Call.reviseCall role _ _ _ => role

/-- The `i`-th critique invocation succeeds and its verdict's
`needs_improvement` flag equals `b`. -/
def critReturns {ε : Type} (s : Steps ε) (i : Nat) (b : Bool) : Prop :=
  ∃ v, s.critiqueRes i = Except.ok v ∧ v.needs_improvement = b

/-- The `i`-th revise invocation succeeds. -/
def revSucceeds {ε : Type} (s : Steps ε) (i : Nat) : Prop :=
  ∃ c, s.reviseRes i = Except.ok c

/-- Concrete oracle whose critiques always demand improvement and whose
invocations never fail. -/
def stepsAllTrue : Steps Unit where
  draftRes := Except.ok "d"
  critiqueRes := fun _ => Except.ok ⟨"fb", true⟩
  reviseRes := fun _ => Except.ok "r"

/-- Concrete oracle whose first critique demands improvement and whose
second critique approves (first `needs_improvement = false` on
iteration 2). -/
def stepsStopAt2 : Steps Unit where
  draftRes := Except.ok "d"
  critiqueRes := fun i => Except.ok ⟨"fb", decide (i < 1)⟩
  reviseRes := fun _ => Except.ok "r"

/-- Concrete oracle whose second revise invocation (iteration 2) fails. -/
def stepsFailRevise : Steps Unit where
  draftRes := Except.ok "d"
  critiqueRes := fun _ => Except.ok ⟨"fb", true⟩
  reviseRes := fun i => if i = 0 then Except.ok "r" else Except.error ()

/-- The loop body makes no draft call, at most one critique per remaining
iteration, and never more revises than critiques. -/
theorem gleanLoop_counts {ε : Type} (s : Steps ε) (role : String)
    (fuel : Nat) : ∀ (i : Nat) (email : String),
    countDraft (gleanLoop s role i fuel email).1 = 0 ∧
    countRevise (gleanLoop s role i fuel email).1 ≤
      countCritique (gleanLoop s role i fuel email).1 ∧
    countCritique (gleanLoop s role i fuel email).1 ≤ fuel := by
  induction fuel with
  | zero => intro i email; simp [gleanLoop, countDraft, countCritique, countRevise]
  | succ fuel ih =>
    intro i email
    simp only [gleanLoop]
    cases hc : s.critiqueRes i with
    | error e => simp [countDraft, countCritique, countRevise]
    | ok fb =>
      by_cases hb : fb.needs_improvement = false
      · simp [hb, countDraft, countCritique, countRevise]
      · cases hr : s.reviseRes i with
        | error e =>
          simp [hb, countDraft, countCritique, countRevise]
        | ok em2 =>
          have h2 := ih (i + 1) em2
          simp only [hb, if_neg, countDraft, countCritique, countRevise]
          simp [countDraft, countCritique, countRevise]
          omega

/-- Each remaining loop iteration contributes at most two invocations to
the trace. -/
theorem gleanLoop_length {ε : Type} (s : Steps ε) (role : String)
    (fuel : Nat) : ∀ (i : Nat) (email : String),
    (gleanLoop s role i fuel email).1.length ≤ 2 * fuel := by
  induction fuel with
  | zero => intro i email; simp [gleanLoop]
  | succ fuel ih =>
    intro i email
    simp only [gleanLoop]
    cases hc : s.critiqueRes i with
    | error e => simp; omega
    | ok fb =>
      by_cases hb : fb.needs_improvement = false
      · simp [hb]; omega
      · cases hr : s.reviseRes i with
        | error e => simp [hb]
        | ok em2 =>
          have h2 := ih (i + 1) em2
          simp [hb]
          omega

/-- `glean` depends on `max_iter` only through the number of loop
iterations `max_iter.toNat` (Python's `range` clamps at zero). -/
theorem glean_toNat_eq {ε : Type} (s : Steps ε) (role : String)
    (m m' : Int) (h : m.toNat = m'.toNat) :
    glean s role m = glean s role m' := by
  unfold glean
  rw [h]

/-- Claim C3: with `max_iterations = 0`, `glean` performs exactly one
draft call, zero critique calls and zero revise calls, and returns the
raw draft unchanged. -/
theorem C3_zero_iterations {ε : Type} (s : Steps ε) (role d : String)
    (h : s.draftRes = Except.ok d) :
    countDraft (glean s role 0).1 = 1 ∧
    countCritique (glean s role 0).1 = 0 ∧
    countRevise (glean s role 0).1 = 0 ∧
    (glean s role 0).2 = Except.ok d := by
  simp [glean, h, gleanLoop, countDraft, countCritique, countRevise]

/-- Witness for C3 on a concrete oracle. -/
theorem C3_zero_iterations_witness :
    stepsAllTrue.draftRes = Except.ok "d" ∧
    (countDraft (glean stepsAllTrue "role" 0).1 = 1 ∧
     countCritique (glean stepsAllTrue "role" 0).1 = 0 ∧
     countRevise (glean stepsAllTrue "role" 0).1 = 0 ∧
     (glean stepsAllTrue "role" 0).2 = Except.ok "d") :=
  ⟨rfl, C3_zero_iterations stepsAllTrue "role" "d" rfl⟩

/-- Claim C4: every execution of `glean` (any verdict sequence, any
failures) makes exactly one draft call, at most `max_iterations` critique
calls, at most `max_iterations` revise calls, and never more revise calls
than critique calls. -/
theorem C4_call_count_invariants {ε : Type} (s : Steps ε) (role : String)
    (m : Int) (h : 0 ≤ m) :
    countDraft (glean s role m).1 = 1 ∧
    (countCritique (glean s role m).1 : Int) ≤ m ∧
    (countRevise (glean s role m).1 : Int) ≤ m ∧
    countRevise (glean s role m).1 ≤ countCritique (glean s role m).1 := by
  have hm : (m.toNat : Int) = m := Int.toNat_of_nonneg h
  cases hd : s.draftRes with
  | error e =>
    simp [glean, hd, countDraft, countCritique, countRevise]
    omega
  | ok email =>
    have h0 := gleanLoop_counts s role m.toNat 0 email
    simp [glean, hd, countDraft, countCritique, countRevise]
    omega

/-- Witness for C4 on a concrete oracle. -/
theorem C4_call_count_invariants_witness :
    (0 : Int) ≤ 3 ∧
    (countDraft (glean stepsAllTrue "role" 3).1 = 1 ∧
     (countCritique (glean stepsAllTrue "role" 3).1 : Int) ≤ 3 ∧
     (countRevise (glean stepsAllTrue "role" 3).1 : Int) ≤ 3 ∧
     countRevise (glean stepsAllTrue "role" 3).1 ≤
       countCritique (glean stepsAllTrue "role" 3).1) :=
  ⟨by decide, C4_call_count_invariants stepsAllTrue "role" 3 (by decide)⟩

/-- Claim C5: `glean` (a total function here, so it terminates on every
input) performs at most `1 + 2 * max_iterations` external invocations:
the trace of all invocations made, failures included, is bounded. -/
theorem C5_invocation_bound {ε : Type} (s : Steps ε) (role : String)
    (m : Int) (h : 0 ≤ m) :
    ((glean s role m).1.length : Int) ≤ 1 + 2 * m := by
  have hm : (m.toNat : Int) = m := Int.toNat_of_nonneg h
  cases hd : s.draftRes with
  | error e =>
    simp [glean, hd]
    omega
  | ok email =>
    have h0 := gleanLoop_length s role m.toNat 0 email
    simp [glean, hd]
    omega

/-- Witness for C5 on a concrete oracle. -/
theorem C5_invocation_bound_witness :
    (0 : Int) ≤ 3 ∧ ((glean stepsAllTrue "role" 3).1.length : Int) ≤ 1 + 2 * 3 :=
  ⟨by decide, C5_invocation_bound stepsAllTrue "role" 3 (by decide)⟩

/-- Claim C7: the orchestration is deterministic — two runs over the same
fixed sequence of step outcomes return the same trace, the same final
result and the same call counts. -/
theorem C7_deterministic {ε : Type} (s₁ s₂ : Steps ε) (role : String) (m : Int)
    (hd : s₁.draftRes = s₂.draftRes)
    (hc : ∀ i, s₁.critiqueRes i = s₂.critiqueRes i)
    (hr : ∀ i, s₁.reviseRes i = s₂.reviseRes i) :
    glean s₁ role m = glean s₂ role m ∧
    (glean s₁ role m).2 = (glean s₂ role m).2 ∧
    countDraft (glean s₁ role m).1 = countDraft (glean s₂ role m).1 ∧
    countCritique (glean s₁ role m).1 = countCritique (glean s₂ role m).1 ∧
    countRevise (glean s₁ role m).1 = countRevise (glean s₂ role m).1 := by
  have hs : s₁ = s₂ := by
    cases s₁ with
    | mk d c r =>
      cases s₂ with
      | mk d' c' r' =>
        simp only [Steps.mk.injEq]
        exact ⟨hd, funext hc, funext hr⟩
  subst hs
  exact ⟨rfl, rfl, rfl, rfl, rfl⟩

/-- Witness for C7 on a concrete oracle. -/
theorem C7_deterministic_witness :
    glean stepsAllTrue "role" 3 = glean stepsAllTrue "role" 3 ∧
    (glean stepsAllTrue "role" 3).2 = (glean stepsAllTrue "role" 3).2 ∧
    countDraft (glean stepsAllTrue "role" 3).1 =
      countDraft (glean stepsAllTrue "role" 3).1 ∧
    countCritique (glean stepsAllTrue "role" 3).1 =
      countCritique (glean stepsAllTrue "role" 3).1 ∧
    countRevise (glean stepsAllTrue "role" 3).1 =
      countRevise (glean stepsAllTrue "role" 3).1 :=
  C7_deterministic stepsAllTrue stepsAllTrue "role" 3 rfl (fun _ => rfl) (fun _ => rfl)

/-- Claim C10: a negative `max_iter` is not an error — Python's `range`
is then empty, so `glean` behaves exactly as with `max_iterations = 0`:
one draft call, no critique or revise calls, and the raw draft outcome is
returned. -/
theorem C10_negative_max_iter {ε : Type} (s : Steps ε) (role : String)
    (m : Int) (h : m < 0) :
    glean s role m = glean s role 0 ∧
    countDraft (glean s role m).1 = 1 ∧
    countCritique (glean s role m).1 = 0 ∧
    countRevise (glean s role m).1 = 0 ∧
    (glean s role m).2 = s.draftRes := by
  have h0 : m.toNat = (0 : Int).toNat := by
    simp [Int.toNat_of_nonpos h.le]
  have he : glean s role m = glean s role 0 := glean_toNat_eq s role m 0 h0
  refine ⟨he, ?_, ?_, ?_, ?_⟩ <;>
    cases hd : s.draftRes <;>
      simp [glean, hd, gleanLoop, Int.toNat_of_nonpos h.le,
        countDraft, countCritique, countRevise]

/-- If the critiques at call indices `i, …, i+k-1` all demand improvement
and the corresponding revisions succeed, while the critique at index
`i + k` approves, then the loop (with at least `k + 1` iterations of fuel
left) makes exactly `k + 1` critique calls and `k` revise calls and
returns the candidate passed into its last critique call. -/
theorem gleanLoop_first_false {ε : Type} (s : Steps ε) (role : String)
    (k : Nat) : ∀ (fuel i : Nat) (email : String), k + 1 ≤ fuel →
    (∀ j, j < k → critReturns s (i + j) true ∧ revSucceeds s (i + j)) →
    critReturns s (i + k) false →
    countCritique (gleanLoop s role i fuel email).1 = k + 1 ∧
    countRevise (gleanLoop s role i fuel email).1 = k ∧
    ∃ c, (critiqueEmails (gleanLoop s role i fuel email).1).get? k = some c ∧
      (gleanLoop s role i fuel email).2 = Except.ok c := by
  induction k with
  | zero =>
    intro fuel i email hf hT hF
    obtain ⟨fuel, rfl⟩ : ∃ g, fuel = g + 1 := ⟨fuel - 1, by omega⟩
    obtain ⟨v, hv, hvb⟩ := hF
    rw [Nat.add_zero] at hv
    simp only [gleanLoop, hv, hvb]
    simp [countCritique, countRevise, critiqueEmails]
  | succ k ih =>
    intro fuel i email hf hT hF
    obtain ⟨fuel, rfl⟩ : ∃ g, fuel = g + 1 := ⟨fuel - 1, by omega⟩
    obtain ⟨⟨v, hv, hvb⟩, em2, hr⟩ := hT 0 (by omega)
    rw [Nat.add_zero] at hv hr
    have H := ih fuel (i + 1) em2 (by omega)
      (fun j hj => by
        have h2 := hT (j + 1) (by omega)
        rwa [show i + (j + 1) = i + 1 + j by omega] at h2)
      (by
        have h2 := hF
        rwa [show i + (k + 1) = i + 1 + k by omega] at h2)
    obtain ⟨h1, h2, c, hc1, hc2⟩ := H
    rw [List.get?_eq_getElem?] at hc1
    simp only [gleanLoop, hv, hvb]
    simp [countCritique, countRevise, critiqueEmails, hr, h1, h2, hc1, hc2]

/-- Claim C1: if the first approving critique (`needs_improvement =
false`) comes on iteration `k` (1-indexed, `k ≤ max_iterations`, every
earlier invocation succeeding), then `glean` makes exactly `k` critique
calls and `k - 1` revise calls and returns the candidate that was passed
into the `k`-th critique call. -/
theorem C1_early_stop {ε : Type} (s : Steps ε) (role d : String) (m : Int)
    (k : Nat) (hd : s.draftRes = Except.ok d) (hk : 1 ≤ k)
    (hkm : (k : Int) ≤ m)
    (hT : ∀ j, j + 1 < k → critReturns s j true ∧ revSucceeds s j)
    (hF : critReturns s (k - 1) false) :
    countCritique (glean s role m).1 = k ∧
    countRevise (glean s role m).1 = k - 1 ∧
    ∃ c, (critiqueEmails (glean s role m).1).get? (k - 1) = some c ∧
      (glean s role m).2 = Except.ok c := by
  obtain ⟨k, rfl⟩ : ∃ j, k = j + 1 := ⟨k - 1, by omega⟩
  have hfuel : k + 1 ≤ m.toNat := by omega
  have H := gleanLoop_first_false s role k m.toNat 0 d hfuel
    (fun j hj => by simpa using hT j (by omega))
    (by simpa using hF)
  obtain ⟨h1, h2, c, hc1, hc2⟩ := H
  rw [List.get?_eq_getElem?] at hc1
  simp only [glean, hd]
  simp [countCritique, countRevise, countDraft, critiqueEmails, h1, h2, hc1, hc2]

/-- Witness for C1 on a concrete oracle approving on iteration 2 of 3. -/
theorem C1_early_stop_witness :
    stepsStopAt2.draftRes = Except.ok "d" ∧ 1 ≤ 2 ∧ ((2 : Nat) : Int) ≤ 3 ∧
    (countCritique (glean stepsStopAt2 "role" 3).1 = 2 ∧
     countRevise (glean stepsStopAt2 "role" 3).1 = 1 ∧
     ∃ c, (critiqueEmails (glean stepsStopAt2 "role" 3).1).get? 1 = some c ∧
       (glean stepsStopAt2 "role" 3).2 = Except.ok c) :=
  ⟨rfl, by omega, by decide,
    C1_early_stop stepsStopAt2 "role" "d" 3 2 rfl (by omega) (by decide)
      (fun j hj => by
        have hj0 : j = 0 := by omega
        subst hj0
        exact ⟨⟨_, rfl, rfl⟩, ⟨"r", rfl⟩⟩)
      ⟨_, rfl, rfl⟩⟩

/-- If every critique within the fuel budget demands improvement and
every revision succeeds, the loop makes one critique call and one revise
call per unit of fuel and returns the output of its last revise call. -/
theorem gleanLoop_all_true {ε : Type} (s : Steps ε) (role : String)
    (fuel : Nat) : ∀ (i : Nat) (email : String),
    (∀ j, j < fuel → critReturns s (i + j) true ∧ revSucceeds s (i + j)) →
    countCritique (gleanLoop s role i fuel email).1 = fuel ∧
    countRevise (gleanLoop s role i fuel email).1 = fuel ∧
    ∃ c, (gleanLoop s role i fuel email).2 = Except.ok c ∧
      ((fuel = 0 ∧ c = email) ∨
       (1 ≤ fuel ∧ s.reviseRes (i + (fuel - 1)) = Except.ok c)) := by
  induction fuel with
  | zero =>
    intro i email hT
    simp [gleanLoop, countCritique, countRevise]
  | succ fuel ih =>
    intro i email hT
    obtain ⟨⟨v, hv, hvb⟩, em2, hr⟩ := hT 0 (by omega)
    rw [Nat.add_zero] at hv hr
    have H := ih (i + 1) em2 (fun j hj => by
      have h2 := hT (j + 1) (by omega)
      rwa [show i + (j + 1) = i + 1 + j by omega] at h2)
    obtain ⟨h1, h2, c, hc1, hc2⟩ := H
    simp only [gleanLoop, hv, hvb]
    refine ⟨by simp [countCritique, countRevise, hr, h1],
      by simp [countCritique, countRevise, hr, h2], c, by simp [hr, hc1], ?_⟩
    rcases hc2 with ⟨hf0, rfl⟩ | ⟨hf1, hrev⟩
    · subst hf0
      exact Or.inr ⟨by omega, by simpa using hr⟩
    · refine Or.inr ⟨by omega, ?_⟩
      rwa [show i + 1 + (fuel - 1) = i + (fuel + 1 - 1) by omega] at hrev

/-- Claim C2: if every critique demands improvement (and every invocation
succeeds), `glean` makes exactly `max_iterations` critique calls and
`max_iterations` revise calls and returns the output of the final revise
call, which is never critiqued again. -/
theorem C2_exhaustion {ε : Type} (s : Steps ε) (role d : String) (m : Int)
    (hd : s.draftRes = Except.ok d) (hm : 1 ≤ m)
    (hT : ∀ j, j < m.toNat → critReturns s j true ∧ revSucceeds s j) :
    (countCritique (glean s role m).1 : Int) = m ∧
    (countRevise (glean s role m).1 : Int) = m ∧
    ∃ c, s.reviseRes (m.toNat - 1) = Except.ok c ∧
      (glean s role m).2 = Except.ok c := by
  have hmn : (m.toNat : Int) = m := Int.toNat_of_nonneg (by omega)
  have H := gleanLoop_all_true s role m.toNat 0 d (fun j hj => by
    simpa using hT j hj)
  obtain ⟨h1, h2, c, hc1, hc2⟩ := H
  have hrev : s.reviseRes (m.toNat - 1) = Except.ok c := by
    rcases hc2 with ⟨hf0, _⟩ | ⟨_, hrev⟩
    · omega
    · simpa using hrev
  simp only [glean, hd]
  simp [countCritique, countRevise, h1, h2, hc1, hmn, hrev]

/-- Witness for C2 on a concrete oracle with `max_iterations = 2`. -/
theorem C2_exhaustion_witness :
    stepsAllTrue.draftRes = Except.ok "d" ∧ (1 : Int) ≤ 2 ∧
    ((countCritique (glean stepsAllTrue "role" 2).1 : Int) = 2 ∧
     (countRevise (glean stepsAllTrue "role" 2).1 : Int) = 2 ∧
     ∃ c, stepsAllTrue.reviseRes ((2 : Int).toNat - 1) = Except.ok c ∧
       (glean stepsAllTrue "role" 2).2 = Except.ok c) :=
  ⟨rfl, by decide,
    C2_exhaustion stepsAllTrue "role" "d" 2 rfl (by decide)
      (fun j hj => ⟨⟨_, rfl, rfl⟩, ⟨"r", rfl⟩⟩)⟩

/-- If the loop body's result is a failure, the failing invocation is the
last entry of its trace, carries exactly that failure, and every earlier
invocation in the trace succeeded. -/
theorem gleanLoop_failure {ε : Type} (s : Steps ε) (role : String)
    (fuel : Nat) : ∀ (i : Nat) (email : String) (e : ε),
    (gleanLoop s role i fuel email).2 = Except.error e →
    ∃ tr c, (gleanLoop s role i fuel email).1 = tr ++ [c] ∧
      callError c = some e ∧ ∀ c' ∈ tr, callError c' = none := by
  induction fuel with
  | zero => intro i email e h; simp [gleanLoop] at h
  | succ fuel ih =>
    intro i email e h
    simp only [gleanLoop] at h ⊢
    cases hc : s.critiqueRes i with
    | error e0 =>
      rw [hc] at h
      simp only [] at h
      injection h with h
      subst h
      exact ⟨[], Call.critiqueCall role email (Except.error e0), by simp [hc],
        by simp [callError], by simp⟩
    | ok fb =>
      by_cases hb : fb.needs_improvement = false
      · rw [hc] at h
        simp [hb] at h
      · cases hr : s.reviseRes i with
        | error e0 =>
          rw [hc] at h
          simp only [hb, if_neg, hr] at h
          simp at h
          subst h
          refine ⟨[Call.critiqueCall role email (Except.ok fb)],
            Call.reviseCall role email fb.feedback (Except.error e0),
            by simp [hc, hb, hr], by simp [callError], ?_⟩
          intro c' hc'
          simp at hc'
          subst hc'
          simp [callError]
        | ok em2 =>
          rw [hc] at h
          simp only [hb, if_neg, hr] at h
          simp at h
          obtain ⟨tr, c, htr, hce, hall⟩ := ih (i + 1) em2 e h
          refine ⟨Call.critiqueCall role email (Except.ok fb) ::
              Call.reviseCall role email fb.feedback (Except.ok em2) :: tr, c,
            by simp [hc, hb, hr, htr], hce, ?_⟩
          intro c' hc'
          rcases List.mem_cons.mp hc' with rfl | hc'
          · simp [callError]
          · rcases List.mem_cons.mp hc' with rfl | hc'
            · simp [callError]
            · exact hall c' hc'

/-- Claim C6: if any draft, critique or revise invocation fails, `glean`
aborts at once — the failing invocation is the last one in the trace (no
further critique or revise calls, no retry of any call: every earlier
invocation succeeded) and the failure is returned to the caller
unchanged. -/
theorem C6_failure_aborts {ε : Type} (s : Steps ε) (role : String)
    (m : Int) (e : ε) (h : (glean s role m).2 = Except.error e) :
    ∃ tr c, (glean s role m).1 = tr ++ [c] ∧ callError c = some e ∧
      ∀ c' ∈ tr, callError c' = none := by
  cases hd : s.draftRes with
  | error e0 =>
    simp only [glean, hd] at h ⊢
    injection h with h
    subst h
    exact ⟨[], Call.draftCall role (Except.error e0), rfl, by simp [callError],
      by simp⟩
  | ok email =>
    simp only [glean, hd] at h ⊢
    obtain ⟨tr, c, htr, hce, hall⟩ := gleanLoop_failure s role m.toNat 0 email e h
    refine ⟨Call.draftCall role (Except.ok email) :: tr, c, by simp [htr], hce, ?_⟩
    intro c' hc'
    rcases List.mem_cons.mp hc' with rfl | hc'
    · simp [callError]
    · exact hall c' hc'

/-- Witness for C6 on a concrete oracle whose second revise invocation
fails. -/
theorem C6_failure_aborts_witness :
    (glean stepsFailRevise "role" 3).2 = Except.error () ∧
    ∃ tr c, (glean stepsFailRevise "role" 3).1 = tr ++ [c] ∧
      callError c = some () ∧ ∀ c' ∈ tr, callError c' = none :=
  ⟨rfl, C6_failure_aborts stepsFailRevise "role" 3 () rfl⟩

/-- Every invocation recorded by the loop body passes the loop's `role`
argument unchanged. -/
theorem gleanLoop_roles {ε : Type} (s : Steps ε) (role : String)
    (fuel : Nat) : ∀ (i : Nat) (email : String) (c : Call ε),
    c ∈ (gleanLoop s role i fuel email).1 → callRole c = role := by
  induction fuel with
  | zero => intro i email c hc; simp [gleanLoop] at hc
  | succ fuel ih =>
    intro i email c hc
    simp only [gleanLoop] at hc
    cases hcr : s.critiqueRes i with
    | error e0 =>
      rw [hcr] at hc
      simp at hc
      subst hc
      simp [callRole]
    | ok fb =>
      by_cases hb : fb.needs_improvement = false
      · rw [hcr] at hc
        simp [hb] at hc
        subst hc
        simp [callRole]
      · cases hr : s.reviseRes i with
        | error e0 =>
          rw [hcr] at hc
          simp only [hb, if_neg, hr] at hc
          simp at hc
          rcases hc with rfl | rfl <;> simp [callRole]
        | ok em2 =>
          rw [hcr] at hc
          simp only [hb, if_neg, hr] at hc
          simp at hc
          rcases hc with rfl | rfl | hc
          · simp [callRole]
          · simp [callRole]
          · exact ih (i + 1) em2 c hc

/-- Claim C8: the task parameter is never modified during one `glean`
invocation — every recorded call (draft, critique or revise) received
exactly the `role` argument that was passed to `glean`. -/
theorem C8_task_immutable {ε : Type} (s : Steps ε) (role : String)
    (m : Int) (c : Call ε) (h : c ∈ (glean s role m).1) :
    callRole c = role := by
  cases hd : s.draftRes with
  | error e0 =>
    simp only [glean, hd] at h
    simp at h
    subst h
    simp [callRole]
  | ok email =>
    simp only [glean, hd] at h
    rcases List.mem_cons.mp h with rfl | h
    · simp [callRole]
    · exact gleanLoop_roles s role m.toNat 0 email c h

/-- Witness for C8 on a concrete oracle. -/
theorem C8_task_immutable_witness :
    Call.draftCall "role" (Except.ok "d") ∈ (glean stepsAllTrue "role" 1).1 ∧
    callRole (Call.draftCall "role" (Except.ok "d") : Call Unit) = "role" :=
  ⟨List.mem_cons_self _ _,
    C8_task_immutable stepsAllTrue "role" 1
      (Call.draftCall "role" (Except.ok "d")) (List.mem_cons_self _ _)⟩

/-- Every revise invocation in the loop body's trace is immediately
preceded by the critique invocation of the same iteration: same role,
same candidate, a verdict demanding improvement, and the verdict's
feedback passed to revise character for character. -/
theorem gleanLoop_revise_paired {ε : Type} (s : Steps ε) (role : String)
    (fuel : Nat) : ∀ (i : Nat) (email : String) (j : Nat)
    (r e f : String) (res : Except ε String),
    ((gleanLoop s role i fuel email).1).get? j =
      some (Call.reviseCall r e f res) →
    ∃ j' v, j = j' + 1 ∧
      ((gleanLoop s role i fuel email).1).get? j' =
        some (Call.critiqueCall r e (Except.ok v)) ∧
      v.feedback = f ∧ v.needs_improvement = true := by
  induction fuel with
  | zero => intro i email j r e f res h; simp [gleanLoop] at h
  | succ fuel ih =>
    intro i email j r e f res h
    simp only [gleanLoop] at h ⊢
    cases hc : s.critiqueRes i with
    | error e0 =>
      rw [hc] at h
      cases j with
      | zero => simp [List.get?] at h
      | succ j => simp [List.get?] at h
    | ok fb =>
      by_cases hb : fb.needs_improvement = false
      · rw [hc] at h
        cases j with
        | zero => simp [hb, List.get?] at h
        | succ j => simp [hb, List.get?] at h
      · have hbt : fb.needs_improvement = true := by
          cases hx : fb.needs_improvement
          · exact absurd hx hb
          · rfl
        cases hr : s.reviseRes i with
        | error e0 =>
          rw [hc] at h
          simp only [hb, if_neg, hr] at h
          cases j with
          | zero => simp [List.get?] at h
          | succ j =>
            cases j with
            | zero =>
              simp [List.get?] at h
              obtain ⟨hr1, he1, hf1, hres1⟩ := h
              refine ⟨0, fb, rfl, ?_, hf1, hbt⟩
              simp [hc, hb, hr, List.get?, hr1, he1]
            | succ j => simp [List.get?] at h
        | ok em2 =>
          rw [hc] at h
          simp only [hb, if_neg, hr] at h
          cases j with
          | zero => simp [List.get?] at h
          | succ j =>
            cases j with
            | zero =>
              simp [List.get?] at h
              obtain ⟨hr1, he1, hf1, hres1⟩ := h
              refine ⟨0, fb, rfl, ?_, hf1, hbt⟩
              simp [hc, hb, hr, List.get?, hr1, he1]
            | succ j =>
              simp only [List.get?] at h
              have h2 : ((gleanLoop s role (i + 1) fuel em2).1).get? j =
                  some (Call.reviseCall r e f res) := by
                simpa [List.get?] using h
              obtain ⟨j', v, hj, hget, hf2, hni⟩ := ih (i + 1) em2 j r e f res h2
              rw [List.get?_eq_getElem?] at hget
              refine ⟨j' + 2, v, by omega, ?_, hf2, hni⟩
              simp [hc, hb, hr, List.get?, hget]

/-- Claim C9: feedback flows verbatim — whenever `glean`'s trace contains
a revise invocation, the immediately preceding invocation is the critique
of the same iteration, the revise call's candidate argument is exactly
the candidate that critique evaluated, and its feedback argument is
exactly the `feedback` field of the verdict that critique returned. -/
theorem C9_feedback_verbatim {ε : Type} (s : Steps ε) (role : String)
    (m : Int) (j : Nat) (r e f : String) (res : Except ε String)
    (h : ((glean s role m).1).get? j = some (Call.reviseCall r e f res)) :
    ∃ j' v, j = j' + 1 ∧
      ((glean s role m).1).get? j' =
        some (Call.critiqueCall r e (Except.ok v)) ∧
      v.feedback = f ∧ v.needs_improvement = true := by
  cases hd : s.draftRes with
  | error e0 =>
    simp only [glean, hd] at h
    cases j with
    | zero => simp [List.get?] at h
    | succ j => simp [List.get?] at h
  | ok email =>
    simp only [glean, hd] at h ⊢
    cases j with
    | zero => simp [List.get?] at h
    | succ j =>
      have h2 : ((gleanLoop s role 0 m.toNat email).1).get? j =
          some (Call.reviseCall r e f res) := by
        simpa [List.get?] using h
      obtain ⟨j', v, hj, hget, hf2, hni⟩ :=
        gleanLoop_revise_paired s role m.toNat 0 email j r e f res h2
      rw [List.get?_eq_getElem?] at hget
      refine ⟨j' + 1, v, by omega, ?_, hf2, hni⟩
      simp [List.get?, hget]

/-- Witness for C9 on a concrete oracle with one revision. -/
theorem C9_feedback_verbatim_witness :
    ((glean stepsAllTrue "role" 1).1).get? 2 =
      some (Call.reviseCall "role" "d" "fb" (Except.ok "r")) ∧
    ∃ j' v, 2 = j' + 1 ∧
      ((glean stepsAllTrue "role" 1).1).get? j' =
        some (Call.critiqueCall "role" "d" (Except.ok v)) ∧
      v.feedback = "fb" ∧ v.needs_improvement = true :=
  ⟨rfl,
    C9_feedback_verbatim stepsAllTrue "role" 1 2 "role" "d" "fb"
      (Except.ok "r") rfl⟩

/-- Witness for C10 on a concrete oracle at `max_iter = -1`. -/
theorem C10_negative_max_iter_witness :
    (-1 : Int) < 0 ∧
    (glean stepsAllTrue "role" (-1) = glean stepsAllTrue "role" 0 ∧
     countDraft (glean stepsAllTrue "role" (-1)).1 = 1 ∧
     countCritique (glean stepsAllTrue "role" (-1)).1 = 0 ∧
     countRevise (glean stepsAllTrue "role" (-1)).1 = 0 ∧
     (glean stepsAllTrue "role" (-1)).2 = stepsAllTrue.draftRes) :=
  ⟨by decide, C10_negative_max_iter stepsAllTrue "role" (-1) (by decide)⟩

end Gleaning
